import Mathlib

set_option maxRecDepth 8000

/-!
Verification of the simplex expression compiler and matching engine of
simplex.hpp against its design specification.  The C++ code is modelled
shallowly: pattern text and compiled programs are lists of byte values
(Nat, reduced mod 256 wherever the source uses uchar), the input stream
is a total function from positions to byte values, and every C++ loop
is a structurally recursive Lean function (with an explicit fuel
argument where the loop has no structural bound).  Thrown
std::logic_error exceptions are modelled as none or Except.error.

Order conventions.  The template parser accumulates emitted bytes by
prepending each new byte to the parameter pack, materialises the pack
into the Stack buffer, and the matcher then pops from the top of that
buffer, which yields the bytes back in emission order.  We therefore
represent a compiled program as the list of emitted bytes in emission
order, which is pop order: the head of the list is the next byte the
matcher pops.
-/

namespace simplex

/-- Byte of the expression text at index i.  Models ex[idx] on the
string_view: the backing array is a NUL-terminated string literal, so
the byte read at index length is 0; the uchar conversion reduces
mod 256. -/
def byteAt (b : List Nat) (i : Nat) : Nat := b.getD i 0 % 256

/-- Model of stouc in simplex.hpp: turns up to three ASCII digits into
one uchar.  The arithmetic happens in int and is converted to uchar on
return, hence the reduction mod 256; a digit count outside 1..3 throws
std::logic_error. -/
def stouc (s0 s1 s2 i : Nat) : Except String Nat :=
  match i with
  | 1 => .ok ((s0 - 48) % 256)
  | 2 => .ok (((s0 - 48) * 10 + (s1 - 48)) % 256)
  | 3 => .ok (((s0 - 48) * 100 + (s1 - 48) * 10 + (s2 - 48)) % 256)
  | _ => .error "invalid simplex quantifier"

/-- Digit-collecting loop of the QUANTIFIER_LEFT and QUANTIFIER_RIGHT
cases: reads at most three consecutive ASCII digits starting at idx.
Returns the three digit slots (the digits array is zero-initialised, so
unread slots stay 0), the digit count i and the index just past the
digits. -/
def digits3 (b : List Nat) (idx : Nat) : Nat × Nat × Nat × Nat × Nat :=
  let c0 := byteAt b idx
  if 48 ≤ c0 ∧ c0 ≤ 57 then
    let c1 := byteAt b (idx + 1)
    if 48 ≤ c1 ∧ c1 ≤ 57 then
      let c2 := byteAt b (idx + 2)
      if 48 ≤ c2 ∧ c2 ≤ 57 then (c0, c1, c2, 3, idx + 3)
      else (c0, c1, 0, 2, idx + 2)
    else (c0, 0, 0, 1, idx + 1)
  else (0, 0, 0, 0, idx)

/-- Flag-accumulating loop of the NORMAL case on seeing a bang or a
dash: walks forward OR-ing NOT (0x81) for each bang and PEEK (0x82) for
each dash, stopping at the first other byte, and returns the
accumulated flag byte together with the index of that first other
byte.  The sentinel counter of the source is never incremented, so its
recursion-limit throw can never fire.  The recursion here runs over the
explicit list suffix b.drop idx; a position past the backing reads as
byte 0, which is not a flag character and stops the loop, exactly as
the NUL terminator does in the source. -/
def flagLoop (res idx : Nat) : List Nat → Nat × Nat
  | [] => (res, idx)
  | c :: tl =>
    if c % 256 = 33 then flagLoop (Nat.lor res 0x81) (idx + 1) tl
    else if c % 256 = 45 then flagLoop (Nat.lor res 0x82) (idx + 1) tl
    else (res, idx)

/-- Parsing states of the compiler state machine (ParseState::S). -/
inductive S where
  | normal
  | zeroOrMoreLeft
  | zeroOrMoreRight
  | oneOrMoreLeft
  | oneOrMoreRight
  | zeroOrOneLeft
  | zeroOrOneRight
  | quantifierLeft
  | quantifierRight
  | anyRanges
  | anyLiterals
  | anyRangeLeft
  | anyRangeRight
  deriving DecidableEq

/-- Result of one parser transition (ParseState): the resume index, the
emitted byte res, and the next state. -/
structure PState where
  idx : Nat
  res : Nat
  state : S
  deriving DecidableEq

/-- Model of parse_step in simplex.hpp: one transition of the parser
state machine at index idx in state s, emitting exactly one byte.
Cases that return before the final shared increment keep idx unchanged;
all other cases resume at idx + 1 (idx + 2 after an escape, where the
escaped byte was read at idx + 1). -/
def parse_step (b : List Nat) (idx : Nat) (s : S) : Except String PState :=
  let c := byteAt b idx
  match s with
  | .normal =>
    if c = 33 ∨ c = 45 then
      let r := flagLoop 0 idx (b.drop idx)
      .ok ⟨r.2 + 1, r.1, .normal⟩
    else if c = 42 then .ok ⟨idx, 0x87, .zeroOrMoreLeft⟩
    else if c = 43 then .ok ⟨idx, 0x87, .oneOrMoreLeft⟩
    else if c = 63 then .ok ⟨idx, 0x87, .zeroOrOneLeft⟩
    else if c = 123 then .ok ⟨idx + 1, 0x87, .quantifierLeft⟩
    else if c = 91 then .ok ⟨idx + 1, 0x88, .anyRanges⟩
    else if c = 92 then .ok ⟨idx + 2, byteAt b (idx + 1), .normal⟩
    else .ok ⟨idx + 1, c, .normal⟩
  | .zeroOrMoreLeft => .ok ⟨idx, 0, .zeroOrMoreRight⟩
  | .zeroOrMoreRight => .ok ⟨idx + 1, 0xFF, .normal⟩
  | .oneOrMoreLeft => .ok ⟨idx, 1, .oneOrMoreRight⟩
  | .oneOrMoreRight => .ok ⟨idx + 1, 0xFF, .normal⟩
  | .zeroOrOneLeft => .ok ⟨idx, 0, .zeroOrOneRight⟩
  | .zeroOrOneRight => .ok ⟨idx + 1, 1, .normal⟩
  | .quantifierLeft =>
    let d := digits3 b idx
    let i := d.2.2.2.1
    let idx2 := d.2.2.2.2
    if byteAt b idx2 ≠ 44 then .error "malformed simplex quantifier"
    else if i = 0 then .ok ⟨idx2 + 1, 0, .quantifierRight⟩
    else
      match stouc d.1 d.2.1 d.2.2.1 i with
      | .error e => .error e
      | .ok v => .ok ⟨idx2 + 1, v, .quantifierRight⟩
  | .quantifierRight =>
    let d := digits3 b idx
    let i := d.2.2.2.1
    let idx2 := d.2.2.2.2
    if byteAt b idx2 ≠ 125 then .error "malformed simplex quantifier"
    else if i = 0 then .ok ⟨idx2 + 1, 0xFF, .normal⟩
    else
      match stouc d.1 d.2.1 d.2.2.1 i with
      | .error e => .error e
      | .ok v => .ok ⟨idx2 + 1, v, .normal⟩
  | .anyRanges =>
    if c = 45 then .ok ⟨idx + 1, 0x89, .anyRangeLeft⟩
    else if c = 92 then .ok ⟨idx + 2, byteAt b (idx + 1), .anyLiterals⟩
    else if c = 93 then .ok ⟨idx + 1, 0x8A, .normal⟩
    else .ok ⟨idx + 1, c, .anyLiterals⟩
  | .anyLiterals =>
    if c = 92 then .ok ⟨idx + 2, byteAt b (idx + 1), .anyLiterals⟩
    else if c = 93 then .ok ⟨idx + 1, 0x8A, .normal⟩
    else .ok ⟨idx + 1, c, .anyLiterals⟩
  | .anyRangeLeft =>
    if c = 92 then .ok ⟨idx + 2, byteAt b (idx + 1), .anyRangeRight⟩
    else if c = 93 then .error "malformed simplex range"
    else .ok ⟨idx + 1, c, .anyRangeRight⟩
  | .anyRangeRight =>
    if c = 92 then .ok ⟨idx + 2, byteAt b (idx + 1), .anyRanges⟩
    else if c = 93 then .error "malformed simplex range"
    else .ok ⟨idx + 1, c, .anyRanges⟩

/-- Model of the recursive template function parse: repeatedly applies
parse_step until idx reaches the expression size, collecting each
emitted byte by prepending it to the accumulator (the template
parameter pack).  An index past the size throws (malformed), and ending
in a non-NORMAL state throws (unterminated operator sequence).  The
fuel argument only bounds the recursion; compileB below passes fuel
that a terminating run can never exhaust, since every three consecutive
steps advance idx by at least one. -/
def parseAll (b : List Nat) (len : Nat) : Nat → Nat → S → List Nat → Except String (List Nat)
  | 0, _, _, _ => .error "parser fuel exhausted"
  | fuel + 1, idx, s, acc =>
    if len < idx then .error "malformed simplex expression"
    else if idx = len then
      match s with
      | .normal => .ok acc
      | _ => .error "simplex unterminated operator sequence"
    else
      match parse_step b idx s with
      | .error e => .error e
      | .ok ps => parseAll b len fuel ps.idx ps.state (ps.res :: acc)

/-- Compilation of a pattern whose bytes sit in backing memory b and
whose declared size is len (the string_view size; the backing of a
string literal additionally holds the NUL terminator and whatever
follows it).  The accumulated pack is reversed so that the resulting
program is in emission order, which is the order the matcher pops. -/
def compileB (b : List Nat) (len : Nat) : Except String (List Nat) :=
  (parseAll b len (3 * len + 6) 0 .normal []).map List.reverse

/-- Compilation of a pattern given as its exact list of bytes: the
backing is that list followed by the NUL terminator (reads past the end
yield 0 via byteAt). -/
def compile (p : List Nat) : Except String (List Nat) := compileB p p.length

/-- One read from the input stream: Input::get consumes the current
element and advances the cursor, Input::peek returns it without
advancing.  Elements are uchar, hence the reduction mod 256. -/
def inRead (f : Nat → Nat) (usePeek : Bool) (pos : Nat) : Nat × Nat :=
  (f pos % 256, if usePeek then pos else pos + 1)

/-- Input stream over a concrete byte string, as string_input in
test.cpp: position i reads str[idx]; std::string hands back the NUL
terminator at the end, idealised here to 0 for every position past the
content. -/
def strIn (s : List Nat) : Nat → Nat := fun i => s.getD i 0

/-- Signed value of a byte: the locals left and right of function any
are declared char, so bytes of 128 and above compare as negative after
integer promotion. -/
def charOf (b : Nat) : Int := if b < 128 then (b : Int) else (b : Int) - 256

/-- Literal phase of function any: walks down the stack from the
current position, comparing cur against each byte until END_ANY (0x8A)
stops the walk.  The argument l is the list of stack bytes strictly
below the byte scur under inspection, topmost first, so the absolute
stack index of scur is l.length; the returned Nat is the final value
written into any_idx.  Walking past the bottom of the stack throws
(out-of-bounds operator[]), modelled as none. -/
def anyLit (cur scur : Nat) (l : List Nat) : Option (Bool × Nat) :=
  if scur = 0x8A then some (false, l.length)
  else if cur = scur then some (true, l.length)
  else
    match l with
    | [] => none
    | s :: tl => anyLit cur s tl

/-- Range phase of function any: while the inspected byte is RANGE
(0x89), reads the two bound bytes below it and tests cur against them
as signed chars; a byte other than RANGE hands over to the literal
phase.  Same index convention and out-of-bounds modelling as anyLit:
on a hit inside the range loop any_idx has been decremented twice, so
the returned index is the length of the remaining list. -/
def anyRange (cur scur : Nat) (l : List Nat) : Option (Bool × Nat) :=
  if scur = 0x89 then
    match l with
    | left :: right :: tl =>
      if charOf left ≤ (cur : Int) ∧ (cur : Int) ≤ charOf right then some (true, tl.length)
      else
        match tl with
        | [] => none
        | s :: tl2 => anyRange cur s tl2
    | _ => none
  else anyLit cur scur l

/-- Model of function any in simplex.hpp, called with the stack after
the first group byte scur has been popped: any_idx is reset to the
stack size at entry, then the range phase and literal phase walk down
the group.  Returns the verdict and the final any_idx. -/
def anyOp (st : List Nat) (cur scur : Nat) : Option (Bool × Nat) :=
  anyRange cur scur st

/-- Greedy loop of qualify for a plain (non-ANY) unit byte scur:
while cnt has not passed mx and the current input element equals scur,
increment cnt and read the next element.  The fuel only bounds the
recursion; qualify passes mx + 2, which the loop cannot exhaust since
cnt grows by one per iteration and the loop stops once mx < cnt.
Returns the final count and input position. -/
def qualifyLit (f : Nat → Nat) (usePeek : Bool) (scur mx : Nat) :
    Nat → Nat → Nat → Nat → Nat × Nat
  | 0, cnt, _, pos => (cnt, pos)
  | fuel + 1, cnt, cur, pos =>
    if mx < cnt then (cnt, pos)
    else if scur ≠ cur then (cnt, pos)
    else
      let r := inRead f usePeek pos
      qualifyLit f usePeek scur mx fuel (cnt + 1) r.1 r.2

/-- Greedy loop of qualify for an ANY group: while cnt has not passed
mx and function any accepts the current element, increment cnt and read
the next element.  any_idx is rewritten by every call of any, including
the final failing one.  Returns the final count, position and any_idx;
none models a thrown out-of-bounds access inside any. -/
def qualifyAny (f : Nat → Nat) (usePeek : Bool) (mx : Nat) (grp : List Nat) (g0 : Nat) :
    Nat → Nat → Nat → Nat → Nat → Option (Nat × Nat × Nat)
  | 0, cnt, _, pos, ai => some (cnt, pos, ai)
  | fuel + 1, cnt, cur, pos, ai =>
    if mx < cnt then some (cnt, pos, ai)
    else
      match anyOp grp cur g0 with
      | none => none
      | some (hit, ai2) =>
        if hit then
          let r := inRead f usePeek pos
          qualifyAny f usePeek mx grp g0 fuel (cnt + 1) r.1 r.2 ai2
        else some (cnt, pos, ai2)

/-- Model of qualify in simplex.hpp: reads one element up front, then
greedily applies the unit (the byte scur, or the ANY group whose first
byte it pops from the stack) to successive elements.  The verdict is
mn ≤ cnt ∧ cnt ≤ mx.  Returns the verdict, the stack as left behind
(one byte popped in the ANY case), the final any_idx and the final
input position; none models a thrown exception. -/
def qualify (f : Nat → Nat) (usePeek : Bool) (mn mx : Nat) (st : List Nat)
    (ai pos scur : Nat) : Option (Bool × List Nat × Nat × Nat) :=
  let r0 := inRead f usePeek pos
  if scur = 0x88 then
    match st with
    | [] => none
    | g0 :: rest =>
      match qualifyAny f usePeek mx rest g0 (mx + 2) 0 r0.1 r0.2 ai with
      | none => none
      | some (cnt, pos2, ai2) => some (decide (mn ≤ cnt ∧ cnt ≤ mx), rest, ai2, pos2)
  else
    let r := qualifyLit f usePeek scur mx (mx + 2) 0 r0.1 r0.2
    some (decide (mn ≤ r.1 ∧ r.1 ≤ mx), st, ai, r.2)

/-- One iteration of the body of the matching loop in function matches,
for the current instruction byte scur with remaining stack st.  Returns
none for a thrown exception, some (Sum.inl v) when the body returns the
verdict v, and some (Sum.inr (stack, flags, any_idx, pos)) when control
reaches the loop update (either through continue after a quantifier or
by falling through the unconditional get-and-compare check at the
bottom of the body).  The update pop itself is done by the driver
matchesLoop. -/
def matchStep (f : Nat → Nat) (st : List Nat) (scur flags ai pos : Nat) :
    Option (Bool ⊕ (List Nat × Nat × Nat × Nat)) :=
  if 0x80 < scur then
    match (if scur ≤ 0x83 then
             match st with
             | [] => none
             | x :: r => some (scur, x, r)
           else some (flags, scur, st) : Option (Nat × Nat × List Nat)) with
    | none => none
    | some (fl, sc, st1) =>
      let usePeek : Bool := Nat.land fl 0x82 != 0
      if sc = 0x87 then
        match st1 with
        | mn :: mx :: u :: r2 =>
          match qualify f usePeek mn mx r2 ai pos u with
          | none => none
          | some (bQ, st2, ai2, pos2) =>
            let st3 := if ai2 < st2.length then st2.drop (st2.length - ai2) else st2
            if Nat.land fl 0x81 ≠ 0 then
              if bQ then some (.inl false) else some (.inr (st3, 0, ai2, pos2))
            else
              if bQ then some (.inr (st3, 0, ai2, pos2)) else some (.inl false)
        | _ => none
      else
        let rc := inRead f usePeek pos
        match (if sc = 0x88 then
                 match st1 with
                 | [] => none
                 | g0 :: r3 =>
                   match anyOp r3 rc.1 g0 with
                   | none => none
                   | some (hit, ai2) => some (hit, g0, ai2, r3)
               else some (decide (rc.1 = sc), sc, ai, st1) : Option (Bool × Nat × Nat × List Nat)) with
        | none => none
        | some (bU, sc2, ai2, st2) =>
          let ft : Option (Bool ⊕ (List Nat × Nat × Nat × Nat)) :=
            let rg := inRead f false rc.2
            if rg.1 ≠ sc2 then some (.inl false) else some (.inr (st2, 0, ai2, rg.2))
          if Nat.land fl 0x81 ≠ 0 then
            if bU then some (.inl false) else ft
          else
            if bU then ft else some (.inl false)
  else
    let rg := inRead f false pos
    if rg.1 ≠ scur then some (.inl false) else some (.inr (st, flags, ai, rg.2))

/-- Driver of the matching loop in function matches: the loop condition
checks that the stack is not empty, runs the body, then the loop update
pops the next scur (throwing if the body emptied the stack) and
continues.  The parameter orig is the const reference _stack of the
caller: the source copies it into a local stack at entry and never
touches it again, so every exit hands it back unchanged as the second
component.  The fuel bounds the recursion; matchesCall passes one more
than the program length, which cannot be exhausted since every
iteration pops at least one byte. -/
def matchesLoop (f : Nat → Nat) (orig : List Nat) :
    Nat → List Nat → Nat → Nat → Nat → Nat → Option Bool × List Nat
  | 0, _, _, _, _, _ => (none, orig)
  | fuel + 1, st, scur, flags, ai, pos =>
    if st.isEmpty then (some true, orig)
    else
      match matchStep f st scur flags ai pos with
      | none => (none, orig)
      | some (.inl v) => (some v, orig)
      | some (.inr (st2, fl2, ai2, pos2)) =>
        match st2 with
        | [] => (none, orig)
        | s2 :: r2 => matchesLoop f orig fuel r2 s2 fl2 ai2 pos2

/-- Model of function matches in simplex.hpp: copies the program stack,
initialises any_idx to the full stack size, pops the first scur
(throwing on an empty program), and runs the loop from input position
0.  The result pairs the verdict with the caller-side program object
after the call. -/
def matchesCall (prog : List Nat) (f : Nat → Nat) : Option Bool × List Nat :=
  match prog with
  | [] => (none, prog)
  | s :: r => matchesLoop f prog (prog.length + 1) r s 0 prog.length 0

/-- Verdict of a match call: some true / some false for a returned
boolean, none for a thrown std::logic_error. -/
def matchesFn (prog : List Nat) (f : Nat → Nat) : Option Bool :=
  (matchesCall prog f).1


/-- Decidable equality for compile results, by case analysis on the two
constructors of Except. -/
instance : DecidableEq (Except String (List Nat)) := fun a b =>
  match a, b with
  | .ok x, .ok y =>
    if h : x = y then .isTrue (by rw [h]) else .isFalse (fun hh => h (Except.ok.inj hh))
  | .error x, .error y =>
    if h : x = y then .isTrue (by rw [h]) else .isFalse (fun hh => h (Except.error.inj hh))
  | .ok _, .error _ => .isFalse (fun hh => Except.noConfusion hh)
  | .error _, .ok _ => .isFalse (fun hh => Except.noConfusion hh)

/-- Claim C1: the claim says a pattern of Negate applied to one literal, such
as the pattern bang-a, matches exactly the inputs whose first element
differs from a, consuming one element.  The code instead skips the byte
that follows a flag run (the flag loop leaves idx on that byte and the
shared increment then steps past it), so the pattern compiles to the
single NOT byte 0x81, and the matcher, having popped that lone byte
before its emptiness check, returns true for every input, including an
input whose first element is the letter a (byte 97), without consuming
anything. -/
theorem c1_negated_literal_bug :
    compile [33, 97] = .ok [0x81] ∧ matchesFn [0x81] (fun _ => 97) = some true := by
  exact ⟨rfl, rfl⟩

/-- Claim C2: the claim says the pattern foo-star-space-bar accepts the input
foobar and the input foo-space-bar, the element that stopped the greedy
scan being evaluated by the next instruction.  In the code, qualify
fetches each scanned element with get, so the element that fails the
scan is consumed; the following literal instruction then reads the
element after it, and both inputs are rejected. -/
theorem c2_star_consumption_bug :
    compile [102, 111, 111, 42, 32, 98, 97, 114]
        = .ok [102, 111, 111, 0x87, 0, 0xFF, 32, 98, 97, 114]
      ∧ matchesFn [102, 111, 111, 0x87, 0, 0xFF, 32, 98, 97, 114]
          (strIn [102, 111, 111, 98, 97, 114]) = some false
      ∧ matchesFn [102, 111, 111, 0x87, 0, 0xFF, 32, 98, 97, 114]
          (strIn [102, 111, 111, 32, 98, 97, 114]) = some false := by
  exact ⟨rfl, rfl, rfl⟩

/-- Claim C3: the claim says the unbounded sentinel of a star quantifier is
distinct from every finite count, so Quantify 0 INF succeeds for every
number n of consecutive matching elements, including n at least 255.
In the code the sentinel is the byte 0xFF and qualify compares the
greedy counter against it as the plain bound 255: with exactly 255
consecutive matches of the unit byte 97 the verdict is true, but with
256 the counter passes the sentinel and the verdict becomes false. -/
theorem c3_unbounded_quantifier_bug :
    qualify (fun i => if i < 255 then 97 else 98) false 0 0xFF [] 0 0 97
        = some (true, [], 0, 256)
      ∧ qualify (fun i => if i < 256 then 97 else 98) false 0 0xFF [] 0 0 97
        = some (false, [], 0, 257) := by
  exact ⟨rfl, rfl⟩

/-- Claim C4 counterexample: the claim says that with more than max
successive matching elements the greedy scan stops as soon as the
counter reaches max, commits the count max, and the verdict is true.
For min 0, max 1, unit byte 97 and an input of unbroken 97s, qualify
instead ends with count 2, consumes three elements, and returns the
verdict false. -/
theorem c4_counterexample :
    qualify (fun _ => 97) false 0 1 [] 7 0 97 = some (false, [], 7, 3) := by
  exact rfl

/-- Claim C5 counterexample: the claim says compiling the pattern
foo-brace-999-comma-1-brace fails with a malformed-quantifier error.
It compiles successfully: stouc converts the three digits in int
arithmetic and the return to uchar reduces 999 mod 256 to 231. -/
theorem c5_counterexample :
    compile [102, 111, 111, 123, 57, 57, 57, 44, 49, 125]
      = .ok [102, 111, 111, 0x87, 231, 1] := by
  exact rfl

/-- Claim C5 amended: a bounded-quantifier numeral of at most three digits
never fails on its value; a value above 254 is silently reduced mod 256
(999 becomes 231).  Only a fourth digit, which makes the separator
check fail, or a missing separator or closing brace, is a
malformed-quantifier compile error, as for foo-brace-1234-comma-1. -/
theorem c5_amended :
    compile [102, 111, 111, 123, 57, 57, 57, 44, 49, 125]
        = .ok [102, 111, 111, 0x87, 231, 1]
      ∧ compile [102, 111, 111, 123, 49, 50, 51, 52, 44, 49, 125]
        = .error "malformed simplex quantifier" := by
  exact ⟨rfl, rfl⟩

/-- Claim C6 counterexample: the claim says applying a quantifier to another
quantifier, as in the pattern a-star-plus-b, is a compile error.  It
compiles successfully, emitting one Quantify triple directly after the
other. -/
theorem c6_counterexample :
    compile [97, 42, 43, 98] = .ok [97, 0x87, 0, 0xFF, 0x87, 1, 0xFF, 98] := by
  exact rfl

/-- Claim C6 amended: the compiler performs no nested-quantifier validation:
the pattern a-star-plus-b compiles, and in the resulting program the
byte that follows the first Quantify triple (position 4, right after
the min and max bytes at positions 2 and 3) is itself the Quantify
opcode 0x87, so a Quantify is not always followed by a non-quantifier
unit. -/
theorem c6_amended :
    compile [97, 42, 43, 98] = .ok [97, 0x87, 0, 0xFF, 0x87, 1, 0xFF, 98]
      ∧ [97, 0x87, 0, 0xFF, 0x87, 1, 0xFF, 98].getD 1 0 = 0x87
      ∧ [97, 0x87, 0, 0xFF, 0x87, 1, 0xFF, 98].getD 4 0 = 0x87 := by
  exact ⟨rfl, rfl, rfl⟩

/-- Claim C7 counterexample: the claim says an unescaped dash outside a
character class compiles to the literal dash (byte 45).  A dash in the
NORMAL state enters the flag-scanning case together with the bang, so
the pattern dash-a-b compiles to the PEEK flag byte 0x82 followed by
the literal b (the a after the flag run is skipped); no byte 45 appears
in the program. -/
theorem c7_counterexample :
    compile [45, 97, 98] = .ok [0x82, 98] ∧ ¬ (45 ∈ [0x82, 98]) := by
  exact ⟨rfl, by decide⟩

/-- Claim C8: the claim says that whenever every instruction succeeds, match
returns true even with unconsumed input.  The prefix half is real: the
program compiled from foo returns true on an input with trailing
elements (the code comment at the end of matches documents exactly
this).  But a program whose final instruction is quantifier-wrapped,
such as the one compiled from a-star-b, crashes instead of returning:
after the quantifier branch empties the stack, the loop update pops
from the empty stack and throws std::logic_error, modelled as none,
even though every instruction succeeded on the input abc. -/
theorem c8_trailing_quantifier_bug :
    compile [97, 42, 98] = .ok [97, 0x87, 0, 0xFF, 98]
      ∧ matchesFn [97, 0x87, 0, 0xFF, 98] (strIn [97, 98, 99]) = none
      ∧ compile [102, 111, 111] = .ok [102, 111, 111]
      ∧ matchesFn [102, 111, 111] (strIn [102, 111, 111, 122, 122]) = some true := by
  exact ⟨rfl, rfl, rfl, rfl⟩

/-- Frame property of the matching loop: the caller-side program object
threaded through the loop is handed back unchanged by every exit. -/
theorem matchesLoop_snd (f : Nat → Nat) (orig : List Nat) :
    ∀ fuel st scur flags ai pos, (matchesLoop f orig fuel st scur flags ai pos).2 = orig := by
  intro fuel
  induction fuel with
  | zero => intro st scur flags ai pos; rfl
  | succ n ih =>
    intro st scur flags ai pos
    simp only [matchesLoop]
    split
    · rfl
    · cases hms : matchStep f st scur flags ai pos with
      | none => rfl
      | some v =>
        rcases v with v | ⟨st2, fl2, ai2, pos2⟩
        · rfl
        · rcases st2 with _ | ⟨s2, r2⟩
          · rfl
          · exact ih r2 s2 fl2 ai2 pos2

/-- Claim C9: match never mutates the compiled program it is given.  The
source takes the program stack by const reference, copies it into a
local working stack, and every mutating operation of the run targets
the copy; the model threads the caller-side object through the whole
run and returns it, and this theorem proves it comes back byte for
byte identical for every program and every input source, so one
program can back arbitrarily many independent match calls. -/
theorem c9_program_unchanged (prog : List Nat) (f : Nat → Nat) :
    (matchesCall prog f).2 = prog := by
  cases prog with
  | nil => rfl
  | cons s r => exact matchesLoop_snd f (s :: r) ((s :: r).length + 1) r s 0 (s :: r).length 0


/-- Greedy-scan overrun lemma: starting the literal loop of qualify in
get mode with k more successful tests ahead (the current element and
the next k - 1 stream elements all equal the unit byte), the loop ends
with count mx + 1 and k elements consumed, because the test also runs
at count mx and only the count check stops it. -/
theorem qualifyLit_pastmax (f : Nat → Nat) (scur mx : Nat) :
    ∀ k fuel cnt cur pos, cnt + k = mx + 1 → k < fuel →
      (0 < k → cur = scur) →
      (∀ i, i + 1 < k → f (pos + i) % 256 = scur) →
      qualifyLit f false scur mx fuel cnt cur pos = (mx + 1, pos + k) := by
  intro k
  induction k with
  | zero =>
    intro fuel cnt cur pos hsum hfuel _ _
    obtain ⟨m, rfl⟩ : ∃ m, fuel = m + 1 := ⟨fuel - 1, by omega⟩
    simp only [qualifyLit]
    rw [if_pos (by omega)]
    simp only [Prod.mk.injEq]
    omega
  | succ n ih =>
    intro fuel cnt cur pos hsum hfuel hcur hstream
    obtain ⟨m, rfl⟩ : ∃ m, fuel = m + 1 := ⟨fuel - 1, by omega⟩
    simp only [qualifyLit]
    rw [if_neg (by omega), if_neg (by simp [hcur (Nat.succ_pos n)])]
    simp only [inRead, Bool.false_eq_true, if_false]
    have h := ih m (cnt + 1) (f pos % 256) (pos + 1) (by omega) (by omega)
      (fun hn => hstream 0 (by omega))
      (fun i hi => by
        have := hstream (i + 1) (by omega)
        simpa [Nat.add_assoc, Nat.add_comm 1 i] using this)
    rw [h]
    congr 1
    omega

/-- Claim C4 amended: for a Quantify with bounds min and max over a plain
(non-ANY) unit, when more than max successive input elements match the
unit, the greedy scan does not stop at max: the loop also runs its test
at count max, the counter ends at max + 1, max + 2 elements are
consumed (the last one fetched by the loop update and never tested),
and the quantifier verdict is false because the count check
count at most max fails, whatever min is. -/
theorem c4_amended (f : Nat → Nat) (mn mx : Nat) (st : List Nat) (ai pos scur : Nat)
    (hu : scur ≠ 0x88)
    (hm : ∀ i, i ≤ mx → f (pos + i) % 256 = scur) :
    qualify f false mn mx st ai pos scur = some (false, st, ai, pos + mx + 2) := by
  simp only [qualify, inRead, Bool.false_eq_true, if_false]
  rw [if_neg hu]
  have h := qualifyLit_pastmax f scur mx (mx + 1) (mx + 2) 0 (f pos % 256) (pos + 1)
    (by omega) (by omega)
    (fun _ => hm 0 (by omega))
    (fun i hi => by
      have := hm (i + 1) (by omega)
      simpa [Nat.add_assoc, Nat.add_comm 1 i] using this)
  rw [h]
  have hd : ¬ (mn ≤ mx + 1 ∧ mx + 1 ≤ mx) := by omega
  simp only [decide_eq_false hd]
  have hp : pos + 1 + (mx + 1) = pos + mx + 2 := by omega
  rw [hp]

/-- Witness for the amended C4 at min 0, max 1, unit byte 97 and the
all-97 input stream: count ends at 2, three elements are consumed, and
the verdict is false. -/
theorem c4_amended_witness :
    qualify (fun _ => 97) false 0 1 [] 7 0 97 = some (false, [], 7, 3) := by
  have h := c4_amended (fun _ => 97) 0 1 [] 7 0 97 (by decide) (fun i _ => rfl)
  exact h


/-- Claim C7 amended: outside character classes and escapes, every pattern
byte other than the eight operator bytes bang, dash, star, plus,
question mark, opening brace, opening bracket and backslash compiles to
the literal instruction carrying that byte, advancing one position; the
dash is not a literal but, like the bang, starts a flag run (it sets
the PEEK flag), so the pattern dash-a-b compiles to the flag byte
0x82 followed by the literal b.  A plain literal instruction, when the
matching loop evaluates it, consumes exactly one input element and
fails unless that element equals the byte. -/
theorem c7_amended :
    (∀ (b : List Nat) (idx c0 : Nat), byteAt b idx = c0 →
        c0 ≠ 33 → c0 ≠ 45 → c0 ≠ 42 → c0 ≠ 43 → c0 ≠ 63 → c0 ≠ 123 → c0 ≠ 91 → c0 ≠ 92 →
        parse_step b idx .normal = .ok ⟨idx + 1, c0, .normal⟩)
      ∧ (∀ (f : Nat → Nat) (st : List Nat) (scur flags ai pos : Nat), scur ≤ 0x80 →
          matchStep f st scur flags ai pos =
            if f pos % 256 = scur then some (.inr (st, flags, ai, pos + 1))
            else some (.inl false))
      ∧ compile [45, 97, 98] = .ok [0x82, 98] := by
  refine ⟨?_, ?_, rfl⟩
  · intro b idx c0 hb h33 h45 h42 h43 h63 h123 h91 h92
    simp only [parse_step, hb]
    rw [if_neg (fun h => h.elim h33 h45), if_neg h42, if_neg h43, if_neg h63,
      if_neg h123, if_neg h91, if_neg h92]
  · intro f st scur flags ai pos h
    simp only [matchStep, inRead]
    rw [if_neg (by omega)]
    by_cases hc : f pos % 256 = scur <;> simp [hc]

/-- Witness for the amended C7: the byte 97 compiles to the literal 97,
and a literal 97 instruction consumes the matching element 97 of the
input stream and continues at position 1. -/
theorem c7_amended_witness :
    parse_step [97] 0 .normal = .ok ⟨1, 97, .normal⟩
      ∧ matchStep (fun _ => 97) [] 97 0 0 0 = some (.inr ([], 0, 0, 1)) := by
  constructor
  · exact c7_amended.1 [97] 0 97 rfl (by decide) (by decide) (by decide) (by decide)
      (by decide) (by decide) (by decide) (by decide)
  · have h := c7_amended.2.1 (fun _ => 97) [] 97 0 0 0 (by decide)
    simpa using h


/-- Claim C10 counterexample: the claim says compilation reads only bytes at
indices strictly below the pattern length.  Take the pattern a-brace-1-2
of length 4 (it ends inside a quantifier digit run) in two backings
that agree on every index below 4 and differ only at index 4, the
terminator position: one holds a comma there, the other the digit 9.
Compilation distinguishes them (one fails with the generic malformed
error after resuming past the end, the other with the
malformed-quantifier error from the separator check), so the digit loop
does read at index 4, one past the end of the pattern. -/
theorem c10_counterexample :
    (∀ i, i < 4 → byteAt [97, 123, 49, 50, 44] i = byteAt [97, 123, 49, 50, 57] i)
      ∧ compileB [97, 123, 49, 50, 44] 4 ≠ compileB [97, 123, 49, 50, 57] 4 := by
  exact ⟨by decide, by decide⟩

/-- Monotonicity of the flag loop: the returned index never drops below
the entry index. -/
theorem flagLoop_ge : ∀ (l : List Nat) (res idx : Nat), idx ≤ (flagLoop res idx l).2 := by
  intro l
  induction l with
  | nil => intro res idx; exact Nat.le_refl idx
  | cons c tl ih =>
    intro res idx
    simp only [flagLoop]
    split
    · exact Nat.le_trans (Nat.le_succ idx) (ih _ _)
    · split
      · exact Nat.le_trans (Nat.le_succ idx) (ih _ _)
      · exact Nat.le_refl idx

/-- Unfolding of the flag loop in terms of the byte it reads at the
current index: the list-suffix recursion agrees with reading through
byteAt. -/
theorem flagLoop_drop (b : List Nat) (idx res : Nat) :
    flagLoop res idx (b.drop idx) =
      if byteAt b idx = 33 then flagLoop (Nat.lor res 0x81) (idx + 1) (b.drop (idx + 1))
      else if byteAt b idx = 45 then flagLoop (Nat.lor res 0x82) (idx + 1) (b.drop (idx + 1))
      else (res, idx) := by
  by_cases h : idx < b.length
  · have hbyte : byteAt b idx = b[idx] % 256 := by
      unfold byteAt
      rw [List.getD_eq_getElem b 0 h]
    rw [List.drop_eq_getElem_cons h, hbyte]
    simp only [flagLoop]
  · have hd : b.drop idx = [] := List.drop_eq_nil_of_le (Nat.le_of_not_lt h)
    have hb : byteAt b idx = 0 := by
      unfold byteAt
      rw [List.getD_eq_default b 0 (Nat.le_of_not_lt h)]
    rw [hd, hb]
    simp [flagLoop]

/-- Agreement lemma for the flag loop under two backings that agree up
to index len + 2: either both runs return the same result, or both end
at or past the declared size len (in which case the parser errors out
identically right after). -/
theorem flagLoop_agree (b1 b2 : List Nat) (len : Nat)
    (H : ∀ i, i ≤ len + 2 → byteAt b1 i = byteAt b2 i) :
    ∀ k idx res, len + 3 ≤ idx + k →
      flagLoop res idx (b1.drop idx) = flagLoop res idx (b2.drop idx)
        ∨ (len ≤ (flagLoop res idx (b1.drop idx)).2
            ∧ len ≤ (flagLoop res idx (b2.drop idx)).2) := by
  intro k
  induction k with
  | zero =>
    intro idx res hk
    right
    exact ⟨Nat.le_trans (by omega) (flagLoop_ge _ res idx),
      Nat.le_trans (by omega) (flagLoop_ge _ res idx)⟩
  | succ n ih =>
    intro idx res hk
    by_cases hidx : len + 2 < idx
    · right
      exact ⟨Nat.le_trans (by omega) (flagLoop_ge _ res idx),
        Nat.le_trans (by omega) (flagLoop_ge _ res idx)⟩
    · have hb := H idx (by omega)
      rw [flagLoop_drop b1 idx res, flagLoop_drop b2 idx res, hb]
      by_cases h33 : byteAt b2 idx = 33
      · rw [if_pos h33, if_pos h33]
        exact ih (idx + 1) (Nat.lor res 0x81) (by omega)
      · rw [if_neg h33, if_neg h33]
        by_cases h45 : byteAt b2 idx = 45
        · rw [if_pos h45, if_pos h45]
          exact ih (idx + 1) (Nat.lor res 0x82) (by omega)
        · rw [if_neg h45, if_neg h45]
          left
          rfl

/-- Bound on the resume index of the digit scan: it moves at most three
positions. -/
theorem digits3_idx_le (b : List Nat) (idx : Nat) : (digits3 b idx).2.2.2.2 ≤ idx + 3 := by
  simp only [digits3]
  repeat' split
  all_goals simp

/-- Agreement of the digit scan under backings that agree on the three
indices it can read. -/
theorem digits3_agree (b1 b2 : List Nat) (len : Nat)
    (H : ∀ i, i ≤ len + 2 → byteAt b1 i = byteAt b2 i) (idx : Nat) (h : idx + 2 ≤ len + 2) :
    digits3 b1 idx = digits3 b2 idx := by
  have h0 := H idx (by omega)
  have h1 := H (idx + 1) (by omega)
  have h2 := H (idx + 2) (by omega)
  simp only [digits3, h0, h1, h2]

/-- Agreement of one parser transition under backings that agree up to
index len + 2, for a transition taken strictly inside the pattern:
either the transitions coincide, or (only when a flag run crosses the
end of the pattern) both emit a step that resumes past the declared
size in the NORMAL state, after which the parser fails identically. -/
theorem parse_step_agree (b1 b2 : List Nat) (len : Nat)
    (H : ∀ i, i ≤ len + 2 → byteAt b1 i = byteAt b2 i) (idx : Nat) (hidx : idx < len) (s : S) :
    parse_step b1 idx s = parse_step b2 idx s
      ∨ ∃ r1 r2 : PState, parse_step b1 idx s = .ok r1 ∧ parse_step b2 idx s = .ok r2 ∧
          r1.state = .normal ∧ r2.state = .normal ∧ len < r1.idx ∧ len < r2.idx := by
  have h0 : byteAt b1 idx = byteAt b2 idx := H idx (by omega)
  have h1 : byteAt b1 (idx + 1) = byteAt b2 (idx + 1) := H (idx + 1) (by omega)
  cases s with
  | normal =>
    by_cases hf : byteAt b2 idx = 33 ∨ byteAt b2 idx = 45
    · rcases flagLoop_agree b1 b2 len H (len + 3) idx 0 (by omega) with heq | ⟨hg1, hg2⟩
      · left
        simp only [parse_step, h0]
        rw [if_pos hf, if_pos hf, heq]
      · right
        refine ⟨⟨(flagLoop 0 idx (b1.drop idx)).2 + 1, (flagLoop 0 idx (b1.drop idx)).1, .normal⟩,
          ⟨(flagLoop 0 idx (b2.drop idx)).2 + 1, (flagLoop 0 idx (b2.drop idx)).1, .normal⟩,
          ?_, ?_, rfl, rfl, Nat.lt_succ_of_le hg1, Nat.lt_succ_of_le hg2⟩
        · simp only [parse_step, h0]
          rw [if_pos hf]
        · simp only [parse_step]
          rw [if_pos hf]
    · left
      simp only [parse_step, h0, h1]
      rw [if_neg hf, if_neg hf]
  | quantifierLeft =>
    left
    have hd := digits3_agree b1 b2 len H idx (by omega)
    have hle := digits3_idx_le b2 idx
    have h3 : byteAt b1 (digits3 b2 idx).2.2.2.2 = byteAt b2 (digits3 b2 idx).2.2.2.2 :=
      H _ (by omega)
    simp only [parse_step, hd, h3]
  | quantifierRight =>
    left
    have hd := digits3_agree b1 b2 len H idx (by omega)
    have hle := digits3_idx_le b2 idx
    have h3 : byteAt b1 (digits3 b2 idx).2.2.2.2 = byteAt b2 (digits3 b2 idx).2.2.2.2 :=
      H _ (by omega)
    simp only [parse_step, hd, h3]
  | zeroOrMoreLeft => left; rfl
  | zeroOrMoreRight => left; rfl
  | oneOrMoreLeft => left; rfl
  | oneOrMoreRight => left; rfl
  | zeroOrOneLeft => left; rfl
  | zeroOrOneRight => left; rfl
  | anyRanges => left; simp only [parse_step, h0, h1]
  | anyLiterals => left; simp only [parse_step, h0, h1]
  | anyRangeLeft => left; simp only [parse_step, h0, h1]
  | anyRangeRight => left; simp only [parse_step, h0, h1]

/-- Once the resume index has passed the declared size, the parser
fails identically for any backing, state and accumulator (same fuel on
both sides). -/
theorem parseAll_over (b1 b2 : List Nat) (len fuel idx1 idx2 : Nat) (s1 s2 : S)
    (acc1 acc2 : List Nat) (h1 : len < idx1) (h2 : len < idx2) :
    parseAll b1 len fuel idx1 s1 acc1 = parseAll b2 len fuel idx2 s2 acc2 := by
  cases fuel with
  | zero => rfl
  | succ n =>
    simp only [parseAll]
    rw [if_pos h1, if_pos h2]

/-- Agreement of the whole parse under backings that agree up to index
len + 2. -/
theorem parseAll_agree (b1 b2 : List Nat) (len : Nat)
    (H : ∀ i, i ≤ len + 2 → byteAt b1 i = byteAt b2 i) :
    ∀ fuel idx s acc, parseAll b1 len fuel idx s acc = parseAll b2 len fuel idx s acc := by
  intro fuel
  induction fuel with
  | zero => intro idx s acc; rfl
  | succ n ih =>
    intro idx s acc
    simp only [parseAll]
    by_cases hgt : len < idx
    · rw [if_pos hgt, if_pos hgt]
    · rw [if_neg hgt, if_neg hgt]
      by_cases heq : idx = len
      · rw [if_pos heq, if_pos heq]
      · rw [if_neg heq, if_neg heq]
        rcases parse_step_agree b1 b2 len H idx (by omega) s with hps | ⟨r1, r2, e1, e2, _, _, l1, l2⟩
        · rw [hps]
          cases parse_step b2 idx s with
          | error e => rfl
          | ok ps => exact ih ps.idx ps.state (ps.res :: acc)
        · rw [e1, e2]
          exact parseAll_over b1 b2 len n r1.idx r2.idx r1.state r2.state _ _ l1 l2

/-- Claim C10 amended: compilation can read the pattern one past its end (the
terminator position, index length) in the flag scan, the escape
handler and the quantifier digit loops, and a digit run abutting the
end can be read up to index length + 2; the compile result depends on
nothing beyond that.  Formally, two backings that agree on every index
up to length + 2 compile identically, whatever sits further out. -/
theorem c10_amended (b1 b2 : List Nat) (len : Nat)
    (H : ∀ i, i ≤ len + 2 → byteAt b1 i = byteAt b2 i) :
    compileB b1 len = compileB b2 len := by
  unfold compileB
  rw [parseAll_agree b1 b2 len H]

/-- Witness for the amended C10: the one-byte pattern a compiles the
same over its own backing and over a backing that differs only from
index 4 on. -/
theorem c10_amended_witness :
    compileB [97] 1 = compileB [97, 0, 0, 0, 99] 1 := by
  exact c10_amended [97] [97, 0, 0, 0, 99] 1 (by decide)

end simplex
